import Mathlib

/-!
Verification development for `owners.py`, a database of OWNERS files for a
repository.

A directory is modelled as the list of its path segments, innermost segment
first, so that `os_path.dirname` is `List.tail`; `[]` is the repository root
(written `''` in the source).  For example the directory `a/b` is
`["b", "a"]` and the file `a/b/x.txt` is `["x.txt", "b", "a"]`.

The Python dictionaries `owned_by` and `owners_for` that map keys to mutable
sets are modelled by `SMap`: an explicit key set together with a lookup
function, where every reachable state keeps the lookup at `∅` off the key set
(the source only ever reads keys it knows to be present, or reads through
`dict.get(k, set())`, which yields the empty set).  Python exceptions are
modelled by returning the mutated state together with an `Option`/`Except`
error, matching the fact that mutations to the `Database` object survive a
raised exception.

String primitives (`str.strip`, the prefix test for `#`, and the anchored
regular-expression match of `BASIC_EMAIL_REGEXP`) are implemented over
`String.data` by structural recursion so that every definition evaluates by
kernel reduction.
-/

/-- The wildcard owner token: if present by itself on a line, everyone can
review (`EVERYONE = '*'` in the source). -/
def EVERYONE : String := "*"

/-- Characters admitted on either side of the `@` by the owner-identifier
pattern `BASIC_EMAIL_REGEXP`, i.e. the class of word characters (ASCII
letters, digits, underscore) plus `-`, `+`, `%` and `.`. -/
def isOwnerChar (c : Char) : Bool :=
  c.isAlphanum || c = '_' || c = '-' || c = '+' || c = '%' || c = '.'

/-- Whitespace characters removed by Python's `str.strip()`. -/
def isSpaceChar (c : Char) : Bool :=
  c = ' ' || c = '\t' || c = '\n' || c = '\r' || c = '\x0b' || c = '\x0c'

/-- Python's `str.strip()`: remove leading and trailing whitespace. -/
def strip (s : String) : String :=
  ⟨((s.data.dropWhile isSpaceChar).reverse.dropWhile isSpaceChar).reverse⟩

/-- Whether the string starts with the comment character `#`
(the `line.startswith('#')` test of the source). -/
def startsWithHash (s : String) : Bool :=
  match s.data with
  | c :: _ => c = '#'
  | [] => false

/-- Split a character list at every occurrence of `@`; the accumulator holds
the current piece reversed. -/
def splitAtSign : List Char → List Char → List (List Char)
  | [], acc => [acc.reverse]
  | c :: cs, acc =>
    if c = '@' then acc.reverse :: splitAtSign cs [] else splitAtSign cs (c :: acc)

/-- Anchored match of `BASIC_EMAIL_REGEXP`
(`^[\w\-\+\%\.]+\@[\w\-\+\%\.]+$`): since `@` is not in the character class,
a string matches exactly when it splits at a unique `@` into two nonempty
all-owner-character parts. -/
def matchesEmail (s : String) : Bool :=
  match splitAtSign s.data [] with
  | [a, b] => !a.isEmpty && !b.isEmpty && a.all isOwnerChar && b.all isOwnerChar
  | _ => false

/-- A directory path relative to the repository root, as the list of its
segments innermost first; `[]` is the root and `os_path.dirname` is
`List.tail`. -/
abbrev Dir := List String

/-- A file path relative to the repository root, basename first; its directory
(`os_path.dirname`) is `List.tail`. -/
abbrev RelPath := List String

/-- Model of a Python dict mapping keys to sets: the key set, plus a lookup
function.  All reachable states keep `find k = ∅` for `k ∉ keys`. -/
structure SMap (κ α : Type) where
  keys : Finset κ
  find : κ → Finset α

/-- The source idiom `m.setdefault(k, set()).add(v)`: ensure the key exists and
insert `v` into its set. -/
def SMap.addTo [DecidableEq κ] [DecidableEq α] (m : SMap κ α) (k : κ) (v : α) :
    SMap κ α :=
  ⟨insert k m.keys, fun q => if q = k then insert v (m.find k) else m.find q⟩

/-- Errors surfaced by the database.  `badLine` models
`SyntaxErrorInOwnersFile` (the offending file's path is
`join root dirpath OWNERS`; we carry `dirpath`, the 1-based line number and
the stripped offending line).  `invalidPath` and `invalidReviewer` model the
`assert` failures of `_CheckPaths` and `_CheckReviewers` respectively. -/
inductive OwnersError
  | badLine (dirpath : Dir) (lineno : Nat) (raw : String)
  | invalidPath
  | invalidReviewer
deriving DecidableEq

instance {ε α : Type} [DecidableEq ε] [DecidableEq α] : DecidableEq (Except ε α) :=
  fun a b =>
    match a, b with
    | .ok x, .ok y =>
      if h : x = y then .isTrue (congrArg Except.ok h)
      else .isFalse (fun he => h (Except.ok.inj he))
    | .error x, .error y =>
      if h : x = y then .isTrue (congrArg Except.error h)
      else .isFalse (fun he => h (Except.error.inj he))
    | .ok _, .error _ => .isFalse (fun he => Except.noConfusion he)
    | .error _, .ok _ => .isFalse (fun he => Except.noConfusion he)

/-- The mutable state of `Database`: `owned_by` (owner to directories),
`owners_for` (directory to owners) and `stop_looking`. -/
structure DB where
  ownedBy : SMap String Dir
  ownersFor : SMap Dir String
  stopLooking : Finset Dir

/-- The initial state built by `Database.__init__`:
`owned_by =` a dict holding only `EVERYONE` with an empty set,
`owners_for = {}`, and `stop_looking =` the set holding only the root. -/
def initDB : DB :=
  ⟨⟨{EVERYONE}, fun _ => ∅⟩, ⟨∅, fun _ => ∅⟩, {([] : Dir)}⟩

/-- The file-source collaborator (`os_path.exists` plus `fopen`), abstracted at
the interface boundary: `fs d` is `some lines` when the OWNERS file of
directory `d` exists and has those lines, and `none` otherwise. -/
abbrev FS := Dir → Option (List String)

/-- The line loop of `_ReadOwnersInDir`: strip each line of surrounding
whitespace; skip lines starting with `#`; record `set noparent` into
`stop_looking`; commit a line matching the email pattern or equal to the
wildcard into both maps; any other line raises `SyntaxErrorInOwnersFile` with
the 1-based line number, keeping the lines already committed. -/
def processLines (dirpath : Dir) (db : DB) :
    List String → Nat → DB × Option OwnersError
  | [], _ => (db, none)
  | rawline :: rest, lineno =>
    let line := strip rawline
    if startsWithHash line then
      processLines dirpath db rest (lineno + 1)
    else if line = "set noparent" then
      processLines dirpath
        { db with stopLooking := insert dirpath db.stopLooking } rest (lineno + 1)
    else if matchesEmail line || line == EVERYONE then
      processLines dirpath
        { db with ownedBy := db.ownedBy.addTo line dirpath,
                  ownersFor := db.ownersFor.addTo dirpath line } rest (lineno + 1)
    else (db, some (.badLine dirpath lineno line))

/-- The body of `_ReadOwnersInDir`: a directory with no OWNERS file contributes
nothing; otherwise its lines are parsed with 1-based line numbers. -/
def readOwnersInDir (fs : FS) (db : DB) (dirpath : Dir) : DB × Option OwnersError :=
  match fs dirpath with
  | none => (db, none)
  | some lines => processLines dirpath db lines 1

/-- The inner while loop of `_LoadDataNeededFor`: walk upward from `dirpath`,
reading each directory not yet present in `owners_for`, and stop on reaching a
directory already present in `owners_for` or a boundary (`_StopLooking`) — the
boundary directory is read before stopping.  The source's loop could pass the
root only if the root were not in `stop_looking`, which never happens
(`stop_looking` starts as the set holding the root and only grows); the `[]`
fallthrough below therefore agrees with every reachable execution.  A raised
syntax error propagates, keeping the state mutated so far.  In the root case
the two exits of the loop body (the boundary test and the fallthrough) return
the same value, so they are written as one. -/
def loadLoop (fs : FS) : Dir → DB → DB × Option OwnersError
  | [], db =>
    if ([] : Dir) ∈ db.ownersFor.keys then (db, none)
    else
      match readOwnersInDir fs db [] with
      | (db₁, some e) => (db₁, some e)
      | (db₁, none) => (db₁, none)
  | x :: parent, db =>
    if (x :: parent) ∈ db.ownersFor.keys then (db, none)
    else
      match readOwnersInDir fs db (x :: parent) with
      | (db₁, some e) => (db₁, some e)
      | (db₁, none) =>
        if (x :: parent) ∈ db₁.stopLooking then (db₁, none)
        else loadLoop fs parent db₁

/-- `_LoadDataNeededFor`: run the upward load walk from each file's directory;
a raised syntax error aborts the remaining files. -/
def loadDataNeededFor (fs : FS) : List RelPath → DB → DB × Option OwnersError
  | [], db => (db, none)
  | f :: rest, db =>
    match loadLoop fs f.tail db with
    | (db₁, some e) => (db₁, some e)
    | (db₁, none) => loadDataNeededFor fs rest db₁

/-- The inner while loop of `_CoveringSetOfOwnersFor`: accumulate the
`owners_for` entries along ancestors, but only while the current directory has
an `owners_for` entry (the loop condition is membership in `owners_for`), and
stop after accumulating a boundary directory's owners.  In the root case the
boundary test and the fallthrough both return the owners accumulated at the
root, so they are written as one (the fallthrough is unreachable anyway, as
the root is always a boundary). -/
def coveringWalk (db : DB) : Dir → Finset String
  | [] =>
    if ([] : Dir) ∈ db.ownersFor.keys then db.ownersFor.find [] else ∅
  | x :: parent =>
    if (x :: parent) ∈ db.ownersFor.keys then
      if (x :: parent) ∈ db.stopLooking then db.ownersFor.find (x :: parent)
      else db.ownersFor.find (x :: parent) ∪ coveringWalk db parent
    else ∅

/-- `_CoveringSetOfOwnersFor`: union of the walk over every file's directory. -/
def coveringSetOfOwnersFor (db : DB) (files : List RelPath) : Finset String :=
  files.foldl (fun acc f => acc ∪ coveringWalk db f.tail) ∅

/-- Modelled from the spec: `_CheckPaths` asserts, through the external
`os_path` collaborator (`abspath`, `join`), that each file stays under the
repository root.  For the normalized relative segment paths of this model a
path is in-root exactly when it is nonempty and has no empty, `.` or `..`
segment. -/
def validPath (p : RelPath) : Bool :=
  !p.isEmpty && p.all (fun s => !(s == "") && !(s == ".") && !(s == ".."))

/-- The assertion of `_CheckPaths` over a whole file collection. -/
def checkPaths (files : List RelPath) : Bool := files.all validPath

/-- The assertion of `_CheckReviewers`: every reviewer must match the email
pattern.  Note that the wildcard is not special-cased here. -/
def checkReviewers (reviewers : List String) : Bool := reviewers.all matchesEmail

/-- The body of `_DirsCoveredBy`: start from `owned_by[EVERYONE]` and union in
`owned_by.get(r, set())` for each reviewer. -/
def dirsCoveredBy (db : DB) (reviewers : List String) : Finset Dir :=
  reviewers.foldl (fun dirs r => dirs ∪ db.ownedBy.find r) (db.ownedBy.find EVERYONE)

/-- The body of `_IsDirCoveredBy`: walk upward until the current directory is
covered or is a boundary; return whether the directory reached is covered.
At the root the boundary test and the fallthrough both yield false, so the
result there is simply membership in the covered set (the fallthrough is
unreachable anyway, as the root is always a boundary). -/
def isDirCoveredBy (db : DB) (coveredDirs : Finset Dir) : Dir → Bool
  | [] => decide (([] : Dir) ∈ coveredDirs)
  | x :: parent =>
    if (x :: parent) ∈ coveredDirs then true
    else if (x :: parent) ∈ db.stopLooking then false
    else isDirCoveredBy db coveredDirs parent

/-- `ReviewersFor`: check the paths, load the needed data, and return the
covering set of owners.  The first component is the database state after the
call (mutations survive errors). -/
def ReviewersFor (fs : FS) (db : DB) (files : List RelPath) :
    DB × Except OwnersError (Finset String) :=
  if checkPaths files then
    match loadDataNeededFor fs files db with
    | (db₁, some e) => (db₁, .error e)
    | (db₁, none) => (db₁, .ok (coveringSetOfOwnersFor db₁ files))
  else (db, .error .invalidPath)

/-- `FilesNotCoveredBy`: validate the paths and the reviewers; with no
reviewers return the input files unchanged without loading anything; otherwise
load and report the files whose directory is not covered.  The source groups
files by directory (`_FilesByDir`) before testing coverage once per directory;
filtering the files directly yields the same set. -/
def FilesNotCoveredBy (fs : FS) (db : DB) (files : List RelPath)
    (reviewers : List String) : DB × Except OwnersError (Finset RelPath) :=
  if checkPaths files then
    if checkReviewers reviewers then
      if reviewers = [] then (db, .ok files.toFinset)
      else
        match loadDataNeededFor fs files db with
        | (db₁, some e) => (db₁, .error e)
        | (db₁, none) =>
          (db₁, .ok ((files.filter
            (fun f => !isDirCoveredBy db₁ (dirsCoveredBy db₁ reviewers) f.tail)).toFinset))
    else (db, .error .invalidReviewer)
  else (db, .error .invalidPath)

/-- `FilesAreCoveredBy`: Python's `not self.FilesNotCoveredBy(files, reviewers)`
— true exactly when the uncovered set is empty. -/
def FilesAreCoveredBy (fs : FS) (db : DB) (files : List RelPath)
    (reviewers : List String) : DB × Except OwnersError Bool :=
  match FilesNotCoveredBy fs db files reviewers with
  | (db₁, .ok s) => (db₁, .ok (decide (s = ∅)))
  | (db₁, .error e) => (db₁, .error e)

/-- A repository with no OWNERS file anywhere. -/
def fsNone : FS := fun _ => none

/-- A repository whose root OWNERS file declares only the wildcard; no other
directory has an OWNERS file. -/
def fsRootStar : FS := fun d => if d = [] then some ["*"] else none

/-- A repository whose root OWNERS file consists of one blank line. -/
def fsBlankLine : FS := fun d => if d = [] then some [""] else none

/-- The scenario of the spec: directory `a` declares owner `alice@x.com`;
directory `a/b` declares `set noparent` and owner `bob@x.com`. -/
def fsScenario5 : FS := fun d =>
  if d = ["a"] then some ["alice@x.com"]
  else if d = ["b", "a"] then some ["set noparent", "bob@x.com"]
  else none

/-- A root OWNERS file with one good owner line followed by a malformed one. -/
def fsPartial : FS := fun d =>
  if d = [] then some ["alice@x.com", "not-an-email"] else none

/-- Index consistency: a directory is recorded under an owner in `owned_by`
exactly when that owner is recorded for the directory in `owners_for`. -/
def Consistent (db : DB) : Prop :=
  ∀ o d, d ∈ db.ownedBy.find o ↔ o ∈ db.ownersFor.find d

/-- Wellformedness of reachable database states: the root is a boundary, the
wildcard key exists in `owned_by`, and both maps look up to `∅` off their key
sets (so `SMap.addTo` coincides with `setdefault(k, set()).add(v)` and
`SMap.find` with `dict.get(k, set())`). -/
structure DB.WF (db : DB) : Prop where
  rootStop : ([] : Dir) ∈ db.stopLooking
  everyone : EVERYONE ∈ db.ownedBy.keys
  ownedByDefault : ∀ k, k ∉ db.ownedBy.keys → db.ownedBy.find k = ∅
  ownersForDefault : ∀ k, k ∉ db.ownersFor.keys → db.ownersFor.find k = ∅

/-- Predicate distinguishing the syntax-error variant from the assertion
variants. -/
def OwnersError.isBad : OwnersError → Bool
  | .badLine _ _ _ => true
  | _ => false

lemma SMap.addTo_find_self [DecidableEq κ] [DecidableEq α] (m : SMap κ α)
    (k : κ) (v : α) : v ∈ (m.addTo k v).find k := by
  simp [SMap.addTo]

lemma SMap.addTo_find_mono [DecidableEq κ] [DecidableEq α] (m : SMap κ α)
    (k : κ) (v : α) (q : κ) (a : α) (h : a ∈ m.find q) :
    a ∈ (m.addTo k v).find q := by
  simp only [SMap.addTo]
  by_cases hq : q = k
  · subst hq
    simp only [if_pos rfl]
    exact Finset.mem_insert_of_mem h
  · simpa [hq] using h

lemma consistent_initDB : Consistent initDB := by
  intro o d
  simp [initDB]

lemma consistent_addTo (db : DB) (l : String) (dp : Dir) (h : Consistent db) :
    Consistent { db with ownedBy := db.ownedBy.addTo l dp,
                         ownersFor := db.ownersFor.addTo dp l } := by
  intro o d
  show d ∈ (db.ownedBy.addTo l dp).find o ↔ o ∈ (db.ownersFor.addTo dp l).find d
  simp only [SMap.addTo]
  by_cases ho : o = l <;> by_cases hd : d = dp
  · subst ho; subst hd
    simp
  · subst ho
    rw [if_pos rfl, if_neg hd, Finset.mem_insert, or_iff_right hd]
    exact h o d
  · subst hd
    rw [if_neg ho, if_pos rfl, Finset.mem_insert, or_iff_right ho]
    exact h o d
  · rw [if_neg ho, if_neg hd]
    exact h o d

lemma consistent_processLines :
    ∀ (ls : List String) (dp : Dir) (db : DB) (n : Nat),
      Consistent db → Consistent (processLines dp db ls n).1 := by
  intro ls
  induction ls with
  | nil => intro dp db n h; simpa [processLines] using h
  | cons l rest ih =>
    intro dp db n h
    simp only [processLines]
    split
    · exact ih dp db (n + 1) h
    · split
      · exact ih dp _ (n + 1) h
      · split
        · exact ih dp _ (n + 1) (consistent_addTo db (strip l) dp h)
        · simpa using h

lemma consistent_readOwnersInDir (fs : FS) (db : DB) (dp : Dir)
    (h : Consistent db) : Consistent (readOwnersInDir fs db dp).1 := by
  unfold readOwnersInDir
  cases hfs : fs dp with
  | none => simpa using h
  | some lines => exact consistent_processLines lines dp db 1 h

lemma processLines_err_isBad :
    ∀ (ls : List String) (dp : Dir) (db : DB) (n : Nat) (e : OwnersError),
      (processLines dp db ls n).2 = some e → e.isBad = true := by
  intro ls
  induction ls with
  | nil => intro dp db n e h; simp [processLines] at h
  | cons l rest ih =>
    intro dp db n e h
    simp only [processLines] at h
    split at h
    · exact ih dp db (n + 1) e h
    · split at h
      · exact ih dp _ (n + 1) e h
      · split at h
        · exact ih dp _ (n + 1) e h
        · rw [← Option.some.inj h]
          rfl

lemma readOwnersInDir_err_isBad (fs : FS) (db : DB) (dp : Dir) (e : OwnersError)
    (h : (readOwnersInDir fs db dp).2 = some e) : e.isBad = true := by
  unfold readOwnersInDir at h
  cases hfs : fs dp with
  | none => rw [hfs] at h; simp at h
  | some lines =>
    rw [hfs] at h
    exact processLines_err_isBad lines dp db 1 e h

lemma loadLoop_err_isBad (fs : FS) :
    ∀ (dp : Dir) (db : DB) (e : OwnersError),
      (loadLoop fs dp db).2 = some e → e.isBad = true := by
  intro dp
  induction dp with
  | nil =>
    intro db e h
    simp only [loadLoop] at h
    split at h
    · simp at h
    · split at h
      next db₁ e₁ heq =>
        simp only at h
        rw [← Option.some.inj h] at *
        have := readOwnersInDir_err_isBad fs db [] e₁ (by rw [heq])
        simpa [← Option.some.inj h] using this
      next db₁ heq => simp at h
  | cons x parent ih =>
    intro db e h
    simp only [loadLoop] at h
    split at h
    · simp at h
    · split at h
      next db₁ e₁ heq =>
        simp only at h
        have := readOwnersInDir_err_isBad fs db (x :: parent) e₁ (by rw [heq])
        simpa [← Option.some.inj h] using this
      next db₁ heq =>
        split at h
        · simp at h
        · exact ih db₁ e h

lemma loadDataNeededFor_err_isBad (fs : FS) :
    ∀ (files : List RelPath) (db : DB) (e : OwnersError),
      (loadDataNeededFor fs files db).2 = some e → e.isBad = true := by
  intro files
  induction files with
  | nil => intro db e h; simp [loadDataNeededFor] at h
  | cons f rest ih =>
    intro db e h
    simp only [loadDataNeededFor] at h
    split at h
    next db₁ e₁ heq =>
      have := loadLoop_err_isBad fs f.tail db e₁ (by rw [heq])
      simpa [← Option.some.inj h] using this
    next db₁ heq => exact ih db₁ e h

lemma processLines_keys :
    ∀ (ls : List String) (dp : Dir) (db : DB) (n : Nat) (d : Dir),
      d ∈ ((processLines dp db ls n).1).ownersFor.keys →
      d ∈ db.ownersFor.keys ∨ d = dp := by
  intro ls
  induction ls with
  | nil => intro dp db n d h; left; simpa [processLines] using h
  | cons l rest ih =>
    intro dp db n d h
    simp only [processLines] at h
    split at h
    · exact ih dp db (n + 1) d h
    · split at h
      · exact ih dp { db with stopLooking := insert dp db.stopLooking } (n + 1) d h
      · split at h
        · rcases ih dp
            { db with ownedBy := db.ownedBy.addTo (strip l) dp,
                      ownersFor := db.ownersFor.addTo dp (strip l) }
            (n + 1) d h with h1 | h1
          · rcases Finset.mem_insert.mp h1 with h2 | h2
            · exact Or.inr h2
            · exact Or.inl h2
          · exact Or.inr h1
        · left; simpa using h

lemma readOwnersInDir_keys (fs : FS) (db : DB) (dp : Dir) (d : Dir)
    (h : d ∈ ((readOwnersInDir fs db dp).1).ownersFor.keys) :
    d ∈ db.ownersFor.keys ∨ (d = dp ∧ (fs dp).isSome = true) := by
  unfold readOwnersInDir at h
  cases hfs : fs dp with
  | none => rw [hfs] at h; exact Or.inl h
  | some lines =>
    rw [hfs] at h
    rcases processLines_keys lines dp db 1 d h with h1 | h1
    · exact Or.inl h1
    · exact Or.inr ⟨h1, rfl⟩

lemma processLines_ownersFor_mono :
    ∀ (ls : List String) (dp : Dir) (db : DB) (n : Nat) (o : String) (d : Dir),
      o ∈ db.ownersFor.find d →
      o ∈ ((processLines dp db ls n).1).ownersFor.find d := by
  intro ls
  induction ls with
  | nil => intro dp db n o d h; simpa [processLines] using h
  | cons l rest ih =>
    intro dp db n o d h
    simp only [processLines]
    split
    · exact ih dp db (n + 1) o d h
    · split
      · exact ih dp _ (n + 1) o d h
      · split
        · exact ih dp _ (n + 1) o d
            (SMap.addTo_find_mono db.ownersFor dp (strip l) d o h)
        · simpa using h

lemma processLines_ownedBy_mono :
    ∀ (ls : List String) (dp : Dir) (db : DB) (n : Nat) (o : String) (d : Dir),
      d ∈ db.ownedBy.find o →
      d ∈ ((processLines dp db ls n).1).ownedBy.find o := by
  intro ls
  induction ls with
  | nil => intro dp db n o d h; simpa [processLines] using h
  | cons l rest ih =>
    intro dp db n o d h
    simp only [processLines]
    split
    · exact ih dp db (n + 1) o d h
    · split
      · exact ih dp _ (n + 1) o d h
      · split
        · exact ih dp _ (n + 1) o d
            (SMap.addTo_find_mono db.ownedBy (strip l) dp o d h)
        · simpa using h

lemma processLines_partial :
    ∀ (ls : List String) (dp : Dir) (db : DB) (lineno : Nat) (db₁ : DB)
      (N : Nat) (raw : String),
      processLines dp db ls lineno = (db₁, some (OwnersError.badLine dp N raw)) →
      ∀ (i : Nat) (t : String), ls.get? i = some t → lineno + i < N →
        startsWithHash (strip t) = false → strip t ≠ "set noparent" →
        (matchesEmail (strip t) || strip t == EVERYONE) = true →
        strip t ∈ db₁.ownersFor.find dp ∧ dp ∈ db₁.ownedBy.find (strip t) := by
  intro ls
  induction ls with
  | nil =>
    intro dp db lineno db₁ N raw hrun i t hget
    simp at hget
  | cons l rest ih =>
    intro dp db lineno db₁ N raw hrun i t hget hlt hc hnp how
    simp only [processLines] at hrun
    split at hrun
    next hcomment =>
      cases i with
      | zero =>
        simp only [List.get?] at hget
        rw [Option.some.inj hget] at hcomment
        rw [hcomment] at hc
        cases hc
      | succ j =>
        exact ih dp db (lineno + 1) db₁ N raw hrun j t (by simpa using hget)
          (by omega) hc hnp how
    next =>
      split at hrun
      next hset =>
        cases i with
        | zero =>
          simp only [List.get?] at hget
          rw [Option.some.inj hget] at hset
          exact absurd hset hnp
        | succ j =>
          exact ih dp _ (lineno + 1) db₁ N raw hrun j t (by simpa using hget)
            (by omega) hc hnp how
      next =>
        split at hrun
        next hown =>
          cases i with
          | zero =>
            simp only [List.get?] at hget
            have ht := Option.some.inj hget
            subst ht
            constructor
            · have h0 : strip l ∈
                  (db.ownersFor.addTo dp (strip l)).find dp :=
                SMap.addTo_find_self db.ownersFor dp (strip l)
              have h1 := processLines_ownersFor_mono rest dp
                { db with ownedBy := db.ownedBy.addTo (strip l) dp,
                          ownersFor := db.ownersFor.addTo dp (strip l) }
                (lineno + 1) (strip l) dp h0
              rw [hrun] at h1
              exact h1
            · have h0 : dp ∈ (db.ownedBy.addTo (strip l) dp).find (strip l) :=
                SMap.addTo_find_self db.ownedBy (strip l) dp
              have h1 := processLines_ownedBy_mono rest dp
                { db with ownedBy := db.ownedBy.addTo (strip l) dp,
                          ownersFor := db.ownersFor.addTo dp (strip l) }
                (lineno + 1) (strip l) dp h0
              rw [hrun] at h1
              exact h1
          | succ j =>
            exact ih dp _ (lineno + 1) db₁ N raw hrun j t (by simpa using hget)
              (by omega) hc hnp how
        next =>
          have h2 := (Prod.mk.injEq _ _ _ _).mp hrun
          have h3 := Option.some.inj h2.2
          have hN : N = lineno := by
            cases h3
            rfl
          omega

lemma initDB_wf : initDB.WF := by
  constructor
  · decide
  · decide
  · intro k _; rfl
  · intro k _; rfl

/-- C1: with the root's policy file declaring the wildcard `*` and directories
`a` and `a/b` having no policy file, `ReviewersFor` on `a/b/x.txt` returns the
empty set, not the set holding `*` as the spec claims: the covering-set walk
stops at the first directory without an `owners_for` entry.  At the same time
the code's own coverage check reports the file as covered (the wildcard owns
the root), so the returned set contradicts the docstring's promise of a
covering set of reviewers. -/
theorem C1_covering_walk_bug :
    (ReviewersFor fsRootStar initDB [["x.txt", "b", "a"]]).2 =
      Except.ok (∅ : Finset String) ∧
    (FilesAreCoveredBy fsRootStar initDB [["x.txt", "b", "a"]]
      ["someone@example.com"]).2 = Except.ok true := by
  constructor
  · decide
  · decide

/-- C2 counterexample: loading the root directory in a repository with no
OWNERS file anywhere leaves `owners_for` without an entry for the root, even
though the root lies on the loaded chain and is its own boundary — the claim
that every chain directory gets a (possibly empty) entry is false. -/
theorem C2_counterexample :
    ([] : Dir) ∉ ((loadLoop fsNone [] initDB).1).ownersFor.keys := by
  decide

/-- C2 amended: after the load walk, a directory has an `owners_for` entry only
if it already had one or its policy file exists (entries are created solely by
parsing an owner line of an existing file); directories without a policy file
never gain an entry. -/
theorem C2_entries_only_from_files (fs : FS) (db : DB) (dirpath d : Dir)
    (h : d ∈ ((loadLoop fs dirpath db).1).ownersFor.keys) :
    d ∈ db.ownersFor.keys ∨ (fs d).isSome = true := by
  induction dirpath generalizing db with
  | nil =>
    simp only [loadLoop] at h
    split at h
    · exact Or.inl h
    · split at h
      next db₁ e₁ heq =>
        rcases readOwnersInDir_keys fs db [] d (by rw [heq]; exact h)
          with h1 | h1
        · exact Or.inl h1
        · exact Or.inr (h1.1 ▸ h1.2)
      next db₁ heq =>
        rcases readOwnersInDir_keys fs db [] d (by rw [heq]; exact h)
          with h1 | h1
        · exact Or.inl h1
        · exact Or.inr (h1.1 ▸ h1.2)
  | cons x parent ih =>
    simp only [loadLoop] at h
    split at h
    · exact Or.inl h
    · split at h
      next db₁ e₁ heq =>
        rcases readOwnersInDir_keys fs db (x :: parent) d
          (by rw [heq]; exact h) with h1 | h1
        · exact Or.inl h1
        · exact Or.inr (h1.1 ▸ h1.2)
      next db₁ heq =>
        split at h
        · rcases readOwnersInDir_keys fs db (x :: parent) d
            (by rw [heq]; exact h) with h1 | h1
          · exact Or.inl h1
          · exact Or.inr (h1.1 ▸ h1.2)
        · rcases ih db₁ h with h1 | h1
          · rcases readOwnersInDir_keys fs db (x :: parent) d
              (by rw [heq]; exact h1) with h2 | h2
            · exact Or.inl h2
            · exact Or.inr (h2.1 ▸ h2.2)
          · exact Or.inr h1

/-- Witness for the amended C2: loading the root of `fsRootStar` creates an
entry for the root, whose policy file indeed exists. -/
theorem C2_entries_witness :
    (([] : Dir) ∈ ((loadLoop fsRootStar [] initDB).1).ownersFor.keys) ∧
    (([] : Dir) ∈ initDB.ownersFor.keys ∨ (fsRootStar ([] : Dir)).isSome = true) :=
  ⟨by decide, C2_entries_only_from_files fsRootStar initDB [] [] (by decide)⟩

/-- C4 counterexample: a policy file consisting of one blank line raises a
syntax error at line 1 — blank lines are not ignored by the source, contrary
to the claim. -/
theorem C4_counterexample :
    (readOwnersInDir fsBlankLine initDB []).2 =
      some (OwnersError.badLine [] 1 "") := by
  decide

/-- C4 amended: a line that is empty after stripping is treated like any other
non-matching line and raises `SyntaxErrorInOwnersFile` at its line number,
leaving the database unchanged by that line. -/
theorem C4_blank_line_is_error (dp : Dir) (db : DB) (rawline : String)
    (rest : List String) (lineno : Nat) (h : strip rawline = "") :
    processLines dp db (rawline :: rest) lineno =
      (db, some (OwnersError.badLine dp lineno "")) := by
  have h1 : startsWithHash "" = false := rfl
  have h2 : ("" = "set noparent") = False := by simp
  have h3 : (matchesEmail "" || "" == EVERYONE) = false := rfl
  simp only [processLines, h, h1, h2, h3]
  simp

/-- Witness for the amended C4 at a concrete whitespace line. -/
theorem C4_blank_line_witness :
    strip "   " = "" ∧
    processLines [] initDB ["   "] 7 =
      (initDB, some (OwnersError.badLine [] 7 "")) :=
  ⟨rfl, C4_blank_line_is_error [] initDB "   " [] 7 rfl⟩

/-- C5: with `a` declaring only `alice@x.com` and `a/b` declaring
`set noparent` and only `bob@x.com`, `ReviewersFor` on `a/b/f` returns exactly
the set holding `bob@x.com` (alice is excluded by the inheritance block) and
`ReviewersFor` on `a/f2` returns exactly the set holding `alice@x.com`. -/
theorem C5_noparent_scenario :
    (ReviewersFor fsScenario5 initDB [["f", "b", "a"]]).2 =
      Except.ok ({"bob@x.com"} : Finset String) ∧
    (ReviewersFor fsScenario5 initDB [["f2", "a"]]).2 =
      Except.ok ({"alice@x.com"} : Finset String) := by
  constructor
  · decide
  · decide

/-- C3 counterexample: the wildcard `*` alone as the reviewer set — every
element is the wildcard — is rejected by the reviewer validation of
`FilesNotCoveredBy`, because `_CheckReviewers` accepts only strings matching
the email pattern and `*` does not match it. -/
theorem C3_counterexample :
    (FilesNotCoveredBy fsNone initDB [["x.txt"]] [EVERYONE]).2 =
      Except.error OwnersError.invalidReviewer := by
  decide

/-- C3 amended: for path-valid inputs, `FilesNotCoveredBy` fails with the
reviewer-validation error exactly when some reviewer does not match the email
pattern; the wildcard is not special-cased and is therefore rejected. -/
theorem C3_reviewer_validation (fs : FS) (db : DB) (files : List RelPath)
    (reviewers : List String) (hp : checkPaths files = true) :
    (FilesNotCoveredBy fs db files reviewers).2 =
        Except.error OwnersError.invalidReviewer ↔
      checkReviewers reviewers = false := by
  unfold FilesNotCoveredBy
  rw [if_pos hp]
  by_cases hr : checkReviewers reviewers = true
  · rw [if_pos hr, hr]
    constructor
    · intro h2
      exfalso
      split at h2
      · simp at h2
      · split at h2
        next db₁ e₁ heq =>
          simp only at h2
          have hbad := loadDataNeededFor_err_isBad fs files db e₁ (by rw [heq])
          rw [Except.error.inj h2] at hbad
          simp [OwnersError.isBad] at hbad
        next db₁ heq => simp at h2
    · intro h2
      cases h2
  · have hr2 : checkReviewers reviewers = false := by
      revert hr
      cases checkReviewers reviewers <;> simp
    rw [if_neg hr, hr2]
    simp

/-- Witness for the amended C3 at a concrete input with the wildcard
reviewer. -/
theorem C3_reviewer_validation_witness :
    checkPaths [["x.txt"]] = true ∧
    ((FilesNotCoveredBy fsNone initDB [["x.txt"]] ["*"]).2 =
        Except.error OwnersError.invalidReviewer ↔
      checkReviewers ["*"] = false) :=
  ⟨rfl, C3_reviewer_validation fsNone initDB [["x.txt"]] ["*"] rfl⟩

/-- C6: index consistency — after any sequence of directory loads starting
from the initial database (including loads aborted by a syntax error, which
keep the owners committed before the error), a directory is in `owned_by[o]`
exactly when `o` is in `owners_for[d]`. -/
theorem C6_index_consistency (fs : FS) (ds : List Dir) :
    Consistent (ds.foldl (fun st d => (readOwnersInDir fs st d).1) initDB) := by
  have hgen : ∀ (ds1 : List Dir) (db : DB), Consistent db →
      Consistent (ds1.foldl (fun st d => (readOwnersInDir fs st d).1) db) := by
    intro ds1
    induction ds1 with
    | nil => intro db h; simpa using h
    | cons d rest ih =>
      intro db h
      simp only [List.foldl]
      exact ih _ (consistent_readOwnersInDir fs db d h)
  exact hgen ds initDB consistent_initDB

/-- C7: round trip — whenever `FilesNotCoveredBy` succeeds with uncovered set
`s`, `FilesAreCoveredBy` on the same inputs returns true exactly when `s` is
empty. -/
theorem C7_round_trip (fs : FS) (db : DB) (files : List RelPath)
    (reviewers : List String) (db₁ : DB) (s : Finset RelPath)
    (h : FilesNotCoveredBy fs db files reviewers = (db₁, Except.ok s)) :
    FilesAreCoveredBy fs db files reviewers = (db₁, Except.ok true) ↔ s = ∅ := by
  unfold FilesAreCoveredBy
  rw [h]
  constructor
  · intro h2
    have h3 := congrArg Prod.snd h2
    simp only at h3
    exact of_decide_eq_true (Except.ok.inj h3)
  · intro h2
    subst h2
    simp

/-- Witness for C7 on the `set noparent` scenario: `a/f2` with reviewer alice
is fully covered, so the uncovered set is empty and `FilesAreCoveredBy`
returns true. -/
theorem C7_round_trip_witness :
    FilesNotCoveredBy fsScenario5 initDB [["f2", "a"]] ["alice@x.com"] =
      ((FilesNotCoveredBy fsScenario5 initDB [["f2", "a"]] ["alice@x.com"]).1,
        Except.ok ∅) ∧
    FilesAreCoveredBy fsScenario5 initDB [["f2", "a"]] ["alice@x.com"] =
      ((FilesNotCoveredBy fsScenario5 initDB [["f2", "a"]] ["alice@x.com"]).1,
        Except.ok true) :=
  ⟨rfl,
    (C7_round_trip fsScenario5 initDB [["f2", "a"]] ["alice@x.com"] _ ∅ rfl).mpr
      rfl⟩

/-- C8: with a nonempty path-valid file set and no reviewers,
`FilesNotCoveredBy` returns exactly the input file set and leaves the database
state untouched — no policy file is loaded. -/
theorem C8_empty_reviewers (fs : FS) (db : DB) (files : List RelPath)
    (hne : files ≠ []) (hp : checkPaths files = true) :
    FilesNotCoveredBy fs db files [] = (db, Except.ok files.toFinset) := by
  unfold FilesNotCoveredBy
  rw [if_pos hp]
  simp [checkReviewers]

/-- Witness for C8 at a concrete one-file input. -/
theorem C8_empty_reviewers_witness :
    ([["x.txt"]] : List RelPath) ≠ [] ∧ checkPaths [["x.txt"]] = true ∧
    FilesNotCoveredBy fsNone initDB [["x.txt"]] [] =
      (initDB, Except.ok ([["x.txt"]] : List RelPath).toFinset) :=
  ⟨by decide, rfl, C8_empty_reviewers fsNone initDB [["x.txt"]] (by decide) rfl⟩

/-- C9: partial commit — when parsing a directory's policy file raises a
syntax error at line `N`, every owner line strictly before line `N` (a
stripped line that is not a comment, not `set noparent`, and matches the email
pattern or the wildcard) is still recorded in both `owners_for` and
`owned_by` of the state left behind by the failed load. -/
theorem C9_partial_commit (fs : FS) (db : DB) (dp : Dir) (lines : List String)
    (db₁ : DB) (N : Nat) (raw : String) (i : Nat) (t : String)
    (hfs : fs dp = some lines)
    (hrun : readOwnersInDir fs db dp = (db₁, some (OwnersError.badLine dp N raw)))
    (hget : lines.get? i = some t) (hlt : 1 + i < N)
    (hc : startsWithHash (strip t) = false) (hnp : strip t ≠ "set noparent")
    (how : (matchesEmail (strip t) || strip t == EVERYONE) = true) :
    strip t ∈ db₁.ownersFor.find dp ∧ dp ∈ db₁.ownedBy.find (strip t) := by
  unfold readOwnersInDir at hrun
  rw [hfs] at hrun
  exact processLines_partial lines dp db 1 db₁ N raw hrun i t hget hlt hc hnp how

/-- Witness for C9: in `fsPartial` the root file has a good owner line
followed by a malformed line erroring at line 2; alice remains recorded. -/
theorem C9_partial_commit_witness :
    fsPartial [] = some ["alice@x.com", "not-an-email"] ∧
    (strip "alice@x.com" ∈
        ((readOwnersInDir fsPartial initDB []).1).ownersFor.find [] ∧
      ([] : Dir) ∈
        ((readOwnersInDir fsPartial initDB []).1).ownedBy.find
          (strip "alice@x.com")) :=
  ⟨rfl,
    C9_partial_commit fsPartial initDB [] ["alice@x.com", "not-an-email"]
      ((readOwnersInDir fsPartial initDB []).1) 2 "not-an-email" 0
      "alice@x.com" rfl rfl rfl (by omega) rfl (by decide) rfl⟩

/-- C10: a validated reviewer never declared in any loaded policy file has no
key in `owned_by`; its lookup is total and yields the empty set, adding it to
the reviewer set leaves `_DirsCoveredBy` unchanged, and alone it covers
exactly the wildcard-owned directories. -/
theorem C10_unknown_reviewer (db : DB) (r : String) (reviewers : List String)
    (hwf : DB.WF db) (hr : r ∉ db.ownedBy.keys) :
    db.ownedBy.find r = ∅ ∧
    dirsCoveredBy db (r :: reviewers) = dirsCoveredBy db reviewers ∧
    dirsCoveredBy db [r] = db.ownedBy.find EVERYONE := by
  have h0 := hwf.ownedByDefault r hr
  refine ⟨h0, ?_, ?_⟩
  · simp [dirsCoveredBy, h0]
  · simp [dirsCoveredBy, h0]

/-- Witness for C10 at the initial database with an undeclared reviewer. -/
theorem C10_unknown_reviewer_witness :
    "nobody@x.com" ∉ initDB.ownedBy.keys ∧
    (initDB.ownedBy.find "nobody@x.com" = ∅ ∧
      dirsCoveredBy initDB ["nobody@x.com", "alice@x.com"] =
        dirsCoveredBy initDB ["alice@x.com"] ∧
      dirsCoveredBy initDB ["nobody@x.com"] = initDB.ownedBy.find EVERYONE) :=
  ⟨by decide,
    C10_unknown_reviewer initDB "nobody@x.com" ["alice@x.com"] initDB_wf
      (by decide)⟩
